import Mathlib

/-!
# Verification of the Opponent Analysis & Preparation-Plan Synthesis Engine

A shallow embedding of the AI-Chess-Tournament-Prep-Agent repository.  The
repository's source tree holds the frontend (TypeScript types in
`src/frontend/src/types/index.ts`, the axios `ApiClient` with its request and
response interceptors, and the React-Query hooks); the backend pipeline
components (Game Normalizer, Phase Classifier & Weakness Detector, Opening
Aggregator, Analysis Cache, Plan Synthesizer) are declared and consumed by the
frontend but their implementation is not part of the tree, so those components
are modelled from the specification, as marked on each definition.
-/

namespace ChessPrep

/-! ## Data model, mirrored from `src/frontend/src/types/index.ts` -/

/-- Mirrors the TS `GameResult` const enum: `1-0`, `0-1`, `1/2-1/2`, `*`. -/
inductive GameResult
    | whiteWin
    | blackWin
    | draw
    | unknown
deriving DecidableEq, Repr

/-- Mirrors the TS `WeakPoint` interface (`types/index.ts` lines 59-67):
position FEN, the move played, evaluations before/after in centipawns, the
centipawn loss, the move number and a phase string. -/
structure WeakPoint where
  position_fen : String
  move : String
  eval_before : ℤ
  eval_after : ℤ
  eval_loss : ℤ
  move_number : ℕ
  phase : String
deriving DecidableEq, Repr

/-- Mirrors the TS `Opening` interface (`types/index.ts` lines 52-57). -/
structure Opening where
  eco_code : String
  name : String
  moves : String
  frequency : ℚ
deriving DecidableEq, Repr

/-! ## Phase Classifier & Weakness Detector (claim C1)

Modelled from the spec: the repository only declares the `WeakPoint` output
type; the classifier itself (spec §4.3) is not under `src/`. -/

/-- Modelled from the spec: per-ply input to the Phase Classifier & Weakness
Detector (§4.3).  Evaluations are from the mover's perspective and `none`
models a position whose evaluation was `unavailable` (§4.2). -/
structure PlyData where
  fen : String
  move : String
  move_number : ℕ
  evalBefore : Option ℤ
  evalAfter : Option ℤ
  majorMaterialLost : Bool
  nonPawnMaterial : ℕ
deriving DecidableEq, Repr

/-- Modelled from the spec: the fixed endgame material threshold of §4.3
("total non-pawn material for both sides below a fixed threshold"). -/
def endgameMaterialThreshold : ℕ := 13

/-- Modelled from the spec: the fixed phase-boundary policy of §4.3 —
opening = move number at most 15 and no side has lost major material;
endgame = total non-pawn material below the fixed threshold;
middlegame = everything else. -/
def classifyPhase (p : PlyData) : String :=
  if p.move_number ≤ 15 ∧ p.majorMaterialLost = false then "opening"
  else if p.nonPawnMaterial < endgameMaterialThreshold then "endgame"
  else "middlegame"

/-- Modelled from the spec: eval-loss is the drop in the mover's evaluation
from before the move to after, clipped at 0 (§4.3). -/
def evalLoss (before after : ℤ) : ℤ := max 0 (before - after)

/-- Modelled from the spec: the default weak-point significance threshold of
100 centipawns (§4.3). -/
def weaknessThreshold : ℤ := 100

/-- Modelled from the spec: Weakness Detector (§4.3).  A `WeakPoint` is
emitted when both evaluations are available and the clipped eval-loss exceeds
the significance threshold; `unavailable` plies are excluded. -/
def detectWeakPoints (plies : List PlyData) : List WeakPoint :=
  plies.filterMap fun p =>
    match p.evalBefore, p.evalAfter with
    | some b, some a =>
        if weaknessThreshold < evalLoss b a then
          some { position_fen := p.fen, move := p.move, eval_before := b,
                 eval_after := a, eval_loss := evalLoss b a,
                 move_number := p.move_number, phase := classifyPhase p }
        else none
    | _, _ => none

/-! ## Game Normalizer ingestion (claim C4)

Modelled from the spec: `ingest(raw_text, source_label)` (§4.1, §6) is not
under `src/` (the frontend only posts the PGN file in
`ApiClient.uploadPgn`).  The per-game parser is a parameter because its
format rules are not specified; the batch semantics are. -/

/-- Modelled from the spec: a collected per-game `MalformedInputError`. -/
structure ParseError where
  index : ℕ
  message : String
deriving DecidableEq, Repr

/-- Modelled from the spec: `EmptyBatchError`, fatal to one ingestion call. -/
inductive IngestError
    | emptyBatch
deriving DecidableEq, Repr

/-- Modelled from the spec: batch ingestion (§4.1).  Each game of the batch is
parsed independently; a malformed game is skipped and recorded as a
`ParseError` without aborting the batch, and the call fails with
`EmptyBatchError` exactly when zero games parse. -/
def ingest {α β : Type} (parse : α → Option β) (batch : List α) :
    Except IngestError (ℕ × List ParseError) :=
  let parsed := batch.filterMap parse
  let errs := (batch.enum.filter fun x => (parse x.2).isNone).map
    fun x => ⟨x.1, "malformed game"⟩
  if parsed.length = 0 then .error .emptyBatch else .ok (parsed.length, errs)

/-! ## Plan Synthesizer (claims C3 and C8)

Modelled from the spec: the synthesizer (§4.6) is not under `src/` (the
frontend only posts a `PrepPlanRequest` in `ApiClient.createPrepPlan`).  The
external reasoning capability is modelled as a function from the attempt
number to its structured response. -/

/-- Modelled from the spec: one drill parsed out of the untrusted external
response, before validation.  Category and difficulty are unconstrained at
this point; the TS `DailyDrill` type constrains them only after validation. -/
structure RawDrill where
  date : String
  title : String
  description : String
  category : String
  difficulty : ℤ
deriving DecidableEq, Repr

/-- Modelled from the spec: the structured response of the external reasoning
capability; `recommendations = none` models a missing required section. -/
structure SynthResponse where
  recommendations : Option String
  drills : List RawDrill
deriving DecidableEq, Repr

/-- Modelled from the spec: `PlanSynthesisError`, fatal to one synthesis
call. -/
inductive PlanSynthesisError
    | validationFailed
deriving DecidableEq, Repr

/-- Modelled from the spec: the persisted plan content produced by a
successful synthesis. -/
structure SynthPlan where
  recommendations : String
  daily_drills : List RawDrill
deriving DecidableEq, Repr

/-- Category must come from the enumerated set of §3:
{tactics, opening, endgame, strategy}. -/
def validCategory (c : String) : Bool :=
  c == "tactics" || c == "opening" || c == "endgame" || c == "strategy"

/-- Modelled from the spec: per-drill validation — category from the
enumerated set and difficulty in 1–5 (§3, §4.6). -/
def validateDrill (d : RawDrill) : Bool :=
  validCategory d.category && decide (1 ≤ d.difficulty) && decide (d.difficulty ≤ 5)

/-- Modelled from the spec: response validation (§4.6) — the recommendations
section is present, the drill list length matches the requested day count and
every drill passes `validateDrill`. -/
def validateResponse (days : ℕ) (r : SynthResponse) : Bool :=
  r.recommendations.isSome && (r.drills.length == days) && r.drills.all validateDrill

/-- Builds the persisted plan from a validated response. -/
def persistPlan (r : SynthResponse) : SynthPlan :=
  { recommendations := r.recommendations.getD "", daily_drills := r.drills }

/-- Outcome of one synthesis call: the caller-visible result, what got
persisted (all-or-nothing) and how many external requests were issued. -/
structure SynthOutcome where
  result : Except PlanSynthesisError SynthPlan
  persisted : Option SynthPlan
  externalCalls : ℕ
deriving Repr

/-- Modelled from the spec: plan synthesis (§4.6).  The first response is
validated; on validation failure the external request is retried exactly once
(with a stricter instruction, which does not change the validation), and a
second failure yields `PlanSynthesisError` with nothing persisted. -/
def synthesizePlan (days : ℕ) (responses : ℕ → SynthResponse) : SynthOutcome :=
  if validateResponse days (responses 0) then
    { result := .ok (persistPlan (responses 0)),
      persisted := some (persistPlan (responses 0)), externalCalls := 1 }
  else if validateResponse days (responses 1) then
    { result := .ok (persistPlan (responses 1)),
      persisted := some (persistPlan (responses 1)), externalCalls := 2 }
  else
    { result := .error .validationFailed, persisted := none, externalCalls := 2 }

/-! ## PrepPlan post-creation operations (claim C7)

Modelled from the spec: the backend handlers behind
`ApiClient.updatePrepPlan` and `ApiClient.completeDrill` are not under
`src/`; per §3 the completion flag is the only field mutated post-creation. -/

/-- Mirrors the TS `DailyDrill` interface (`types/index.ts` lines 131-144),
with the category/difficulty ranges relaxed to the raw types so that the frame
property is about arbitrary stored drills. -/
structure DailyDrill where
  id : String
  date : String
  title : String
  description : String
  category : String
  difficulty : ℤ
  completed : Bool
deriving DecidableEq, Repr

/-- Mirrors the TS `PrepPlan` interface (`types/index.ts` lines 69-78), with
the drill references resolved to the drills themselves so that drill progress
is part of the plan state. -/
structure PrepPlan where
  opponent_name : String
  tournament_date : Option String
  common_openings : List Opening
  weak_points : List WeakPoint
  recommendations : String
  drills : List DailyDrill
deriving DecidableEq, Repr

/-- Modelled from the spec: the exposed post-creation update operations —
progress updates on drills only (§3, `ApiClient.completeDrill` and the
progress use of `ApiClient.updatePrepPlan`). -/
inductive PlanUpdateOp
    | completeDrill (drillId : String)
    | setDrillCompleted (drillId : String) (flag : Bool)
deriving DecidableEq, Repr

/-- Modelled from the spec: applying a post-creation operation to a plan;
only the matching drill's completion flag changes. -/
def applyPlanOp (plan : PrepPlan) (op : PlanUpdateOp) : PrepPlan :=
  match op with
  | .completeDrill i =>
      { plan with drills := plan.drills.map fun d =>
          if d.id = i then { d with completed := true } else d }
  | .setDrillCompleted i b =>
      { plan with drills := plan.drills.map fun d =>
          if d.id = i then { d with completed := b } else d }

/-- Everything of a drill except its completion flag. -/
def DailyDrill.content (d : DailyDrill) :
    String × String × String × String × String × ℤ :=
  (d.id, d.date, d.title, d.description, d.category, d.difficulty)

/-! ## Analysis Cache (claim C6)

Modelled from the spec: the cache (§4.5) is not under `src/`.  Concurrency is
embedded as an interleaving of atomic steps on the cache state: a `request`
step is one caller entering `get-or-compute` (starting the computation only
when no entry exists; otherwise the caller awaits the in-flight computation or
reads the completed entry), and a `complete` step is the single in-flight
computation finishing.  `started` counts how many times the compute function
was started per fingerprint. -/

/-- A cache entry is either an in-flight computation or a completed value. -/
inductive EntryState (V : Type)
    | computing
    | done (v : V)
deriving DecidableEq, Repr

/-- Modelled from the spec: Analysis Cache state (§4.5). -/
structure CacheState (V : Type) where
  entries : String → Option (EntryState V)
  started : String → ℕ

/-- One atomic cache event. -/
inductive CacheOp (V : Type)
    | request (fp : String)
    | complete (fp : String) (v : V)
deriving DecidableEq, Repr

/-- The empty cache. -/
def initCache (V : Type) : CacheState V := ⟨fun _ => none, fun _ => 0⟩

/-- Modelled from the spec: one atomic step of `get-or-compute` (§4.5).  A
`request` on a missing entry installs `computing` and starts the compute
function; a `request` on an existing entry awaits or reads it without starting
anything; a `complete` finishes the in-flight computation. -/
def cacheStep {V : Type} (s : CacheState V) (op : CacheOp V) : CacheState V :=
  match op with
  | .request fp =>
      match s.entries fp with
      | none =>
          { entries := fun k => if k = fp then some .computing else s.entries k,
            started := fun k => if k = fp then s.started fp + 1 else s.started k }
      | some _ => s
  | .complete fp v =>
      match s.entries fp with
      | some .computing =>
          { s with entries := fun k => if k = fp then some (.done v) else s.entries k }
      | _ => s

/-- Running a whole interleaving of cache events. -/
def cacheRun {V : Type} (s : CacheState V) (ops : List (CacheOp V)) : CacheState V :=
  ops.foldl cacheStep s

/-- Whether an event concerns the given fingerprint. -/
def CacheOp.touches {V : Type} : CacheOp V → String → Prop
  | .request f, fp => f = fp
  | .complete f _, fp => f = fp

/-! ## ApiClient interceptors (claims C9 and C10)

Embedded from `src/frontend/src/types/index.ts`, `ApiClient` constructor:
the request interceptor reads `localStorage.getItem('auth_token')` and sets
`config.headers.Authorization = 'Bearer <token>'` when the token is truthy
(JavaScript truthiness: present and non-empty); the response interceptor, on
an error whose `response?.status === 401`, removes `auth_token` from
localStorage and sets `window.location.href = '/login'`, then rejects with the
original error. -/

/-- `window.localStorage`: a key-value store with absent keys as `none`. -/
abbrev Store := String → Option String

/-- The parts of an axios request config the interceptor can see: the
`Authorization` header plus fields it never touches. -/
structure RequestConfig where
  url : String
  authorization : Option String
  contentType : Option String
deriving DecidableEq, Repr

/-- The request interceptor: `const token = localStorage.getItem('auth_token');
if (token) config.headers.Authorization = 'Bearer ' + token`.  The `if (token)`
test is JavaScript truthiness, so an empty-string token sets no header. -/
def requestInterceptor (store : Store) (config : RequestConfig) : RequestConfig :=
  match store "auth_token" with
  | some token =>
      if token = "" then config
      else { config with authorization := some ("Bearer " ++ token) }
  | none => config

/-- An axios error as seen by the response interceptor: the HTTP status of
`error.response` when a response exists, plus an opaque payload identifying
the error object. -/
structure HttpError where
  status : Option ℕ
  message : String
deriving DecidableEq, Repr

/-- The browser state the response interceptor can mutate. -/
structure BrowserState where
  store : Store
  location : String

/-- `localStorage.removeItem`. -/
def removeKey (store : Store) (k : String) : Store :=
  fun x => if x = k then none else store x

/-- The response error interceptor: on status 401 it removes `auth_token` and
redirects to `/login`; in every case it rejects with the original error (the
returned `HttpError`). -/
def responseErrorInterceptor (st : BrowserState) (e : HttpError) :
    BrowserState × HttpError :=
  if e.status = some 401 then
    ({ store := removeKey st.store "auth_token", location := "/login" }, e)
  else (st, e)

/-! ## Game Normalizer (claim C5)

Modelled from the spec: the normalizer (§4.1) is not under `src/`.  Move text
is modelled as a character list; normalization splits it into
whitespace-delimited tokens, strips leading move-number markup (digits and
dots) from each token and drops tokens that were pure move-number markup, so
that whitespace variance and move-number spacing do not affect the result.
The fingerprint is a stable function of the canonical move text plus the
player names plus the date. -/

/-- Whitespace characters for tokenization. -/
def isWs (c : Char) : Bool := c = ' ' || c = '\t' || c = '\n' || c = '\r'

/-- Splits into whitespace-delimited chunks, keeping empty chunks between
consecutive whitespace characters (filtered away in `tokenize`). -/
def tokenizeAux (s : List Char) : List (List Char) :=
  s.foldr
    (fun c acc =>
      match acc with
      | [] => []
      | t :: ts => if isWs c then [] :: t :: ts else (c :: t) :: ts)
    [[]]

/-- The whitespace-delimited tokens of a character list. -/
def tokenize (s : List Char) : List (List Char) :=
  (tokenizeAux s).filter fun t => !t.isEmpty

/-- Modelled from the spec: strips leading move-number markup — any leading
run of digits and dots — so `1.e4` and `e4` agree and a pure `1.` token
becomes empty (and is then dropped). -/
def stripMoveNum (t : List Char) : List Char :=
  t.dropWhile fun c => c.isDigit || c = '.'

/-- The normalized token sequence of a raw move text. -/
def normalizeTokens (s : List Char) : List (List Char) :=
  ((tokenize s).map stripMoveNum).filter fun t => !t.isEmpty

/-- Renders a token sequence with single spaces. -/
def renderTokens : List (List Char) → List Char
  | [] => []
  | [t] => t
  | t :: u :: ts => t ++ ' ' :: renderTokens (u :: ts)

/-- The canonical (normalized) move text. -/
def canonicalMoveText (s : List Char) : List Char :=
  renderTokens (normalizeTokens s)

/-- Modelled from the spec: the stable content fingerprint over normalized
move text plus player names plus date (§4.1), as a canonical string. -/
def fingerprintOf (moves white black date : List Char) : List Char :=
  moves ++ '|' :: white ++ '|' :: black ++ '|' :: date

/-- A raw game record as handed to the normalizer: raw move text and the
metadata entering the fingerprint. -/
structure RawGame where
  moveText : List Char
  white : List Char
  black : List Char
  date : List Char
deriving DecidableEq, Repr

/-- A normalized game with its content fingerprint. -/
structure NormalGame where
  moveText : List Char
  white : List Char
  black : List Char
  date : List Char
  fingerprint : List Char
deriving DecidableEq, Repr

/-- Modelled from the spec: the Game Normalizer's per-game output (§4.1). -/
def normalizeGame (g : RawGame) : NormalGame :=
  let cm := canonicalMoveText g.moveText
  { moveText := cm, white := g.white, black := g.black, date := g.date,
    fingerprint := fingerprintOf cm g.white g.black g.date }

/-- Re-reading a normalized game as raw input, for idempotence. -/
def NormalGame.toRaw (g : NormalGame) : RawGame :=
  ⟨g.moveText, g.white, g.black, g.date⟩

/-! ## Opening Aggregator (claim C2)

Modelled from the spec: the aggregator (§4.4) is not under `src/` (the
frontend only declares the `Opening` output type).  Games carry an optional
classification code; `none` is the `unclassified` bucket. -/

/-- Modelled from the spec: an analyzed game as seen by the aggregator — its
opening classification code (or none) and its outcome. -/
structure AnalyzedGame where
  eco : Option String
  result : GameResult
deriving DecidableEq, Repr

/-- One aggregated opening group: its code (`none` = unclassified), game
count, outcome counts and frequency as a fraction of all games. -/
structure OpeningGroup where
  code : Option String
  count : ℕ
  wins : ℕ
  losses : ℕ
  draws : ℕ
  freq : ℚ
deriving DecidableEq, Repr

/-- Builds the group of one classification code over the analyzed set. -/
def mkGroup (games : List AnalyzedGame) (o : Option String) : OpeningGroup :=
  let n := (games.map (·.eco)).countP fun x => decide (x = o)
  { code := o, count := n,
    wins := games.countP fun g => decide (g.eco = o) && decide (g.result = .whiteWin),
    losses := games.countP fun g => decide (g.eco = o) && decide (g.result = .blackWin),
    draws := games.countP fun g => decide (g.eco = o) && decide (g.result = .draw),
    freq := (n : ℚ) / (games.length : ℚ) }

/-- The aggregator's output order: descending frequency with ascending
classification code as tie-break among classified groups, and the
unclassified group after every classified group regardless of frequency. -/
def GroupLE (g h : OpeningGroup) : Prop :=
  (g.code = none → h.code = none) ∧
  (g.code ≠ none → h.code ≠ none →
    (h.freq < g.freq ∨ (g.freq = h.freq ∧ g.code.getD "" ≤ h.code.getD "")))

instance : DecidableRel GroupLE := fun g h => by
  unfold GroupLE
  infer_instance

instance : IsTotal OpeningGroup GroupLE := ⟨by
  intro a b
  by_cases ha : a.code = none <;> by_cases hb : b.code = none
  · exact Or.inl ⟨fun _ => hb, fun hna _ => absurd ha hna⟩
  · exact Or.inr ⟨fun h => absurd h hb, fun _ hna => absurd ha hna⟩
  · exact Or.inl ⟨fun h => absurd h ha, fun _ hnb => absurd hb hnb⟩
  · rcases lt_trichotomy a.freq b.freq with h | h | h
    · exact Or.inr ⟨fun hc => absurd hc hb, fun _ _ => Or.inl h⟩
    · rcases le_total (a.code.getD "") (b.code.getD "") with hc | hc
      · exact Or.inl ⟨fun hcc => absurd hcc ha, fun _ _ => Or.inr ⟨h, hc⟩⟩
      · exact Or.inr ⟨fun hcc => absurd hcc hb, fun _ _ => Or.inr ⟨h.symm, hc⟩⟩
    · exact Or.inl ⟨fun hcc => absurd hcc ha, fun _ _ => Or.inl h⟩⟩

instance : IsTrans OpeningGroup GroupLE := ⟨by
  intro a b c hab hbc
  obtain ⟨hab1, hab2⟩ := hab
  obtain ⟨hbc1, hbc2⟩ := hbc
  refine ⟨fun ha => hbc1 (hab1 ha), ?_⟩
  intro hna hnc
  by_cases hnb : b.code = none
  · exact absurd (hbc1 hnb) hnc
  · have h1 := hab2 hna hnb
    have h2 := hbc2 hnb hnc
    rcases h1 with h1 | ⟨h1e, h1c⟩ <;> rcases h2 with h2 | ⟨h2e, h2c⟩
    · exact Or.inl (h2.trans h1)
    · exact Or.inl (h2e ▸ h1)
    · exact Or.inl (by rw [h1e]; exact h2)
    · exact Or.inr ⟨h1e.trans h2e, h1c.trans h2c⟩⟩

/-- Whether a group is the unclassified bucket. -/
def isUnclassified (g : OpeningGroup) : Bool := g.code.isNone

/-- Modelled from the spec: the Opening Aggregator (§4.4) — one group per
distinct classification value (the `none` group being the single unclassified
bucket), sorted by `GroupLE`. -/
def aggregateOpenings (games : List AnalyzedGame) : List OpeningGroup :=
  List.insertionSort GroupLE ((games.map (·.eco)).dedup.map (mkGroup games))

/-! ## Concrete sample inputs used by the witnesses -/

/-- A store whose `auth_token` is the empty string (JavaScript-falsy). -/
def emptyTokenStore : Store := fun k => if k = "auth_token" then some "" else none

/-- A store holding a non-empty `auth_token`. -/
def bearerStore : Store := fun k => if k = "auth_token" then some "tok123" else none

/-- A request config without an `Authorization` header. -/
def sampleConfig : RequestConfig :=
  { url := "/prep-plans", authorization := none, contentType := some "application/json" }

/-- A browser state before the response interceptor fires. -/
def sampleBrowser : BrowserState := { store := bearerStore, location := "/dashboard" }

/-- An unauthorized response error. -/
def err401 : HttpError := { status := some 401, message := "Unauthorized" }

/-- A server response error that is not a 401. -/
def err500 : HttpError := { status := some 500, message := "Server error" }

/-- A ply with both evaluations available and a 250-centipawn drop. -/
def samplePly : PlyData :=
  { fen := "rnbqkbnr/pppppppp/8/8/8/8/PPPPPPPP/RNBQKBNR w KQkq - 0 1",
    move := "Qh5", move_number := 3, evalBefore := some 50,
    evalAfter := some (-200), majorMaterialLost := false, nonPawnMaterial := 62 }

/-- A well-formed drill used by the synthesis witnesses. -/
def sampleDrill : RawDrill :=
  { date := "2026-10-12", title := "Knight forks", description := "Solve 10 puzzles",
    category := "tactics", difficulty := 3 }

/-- An external response missing its recommendations section. -/
def badResponse : SynthResponse := { recommendations := none, drills := [] }

/-- A valid 7-day external response. -/
def goodResponse7 : SynthResponse :=
  { recommendations := some "Play the Najdorf", drills := List.replicate 7 sampleDrill }

/-- A valid 5-day external response. -/
def goodResponse5 : SynthResponse :=
  { recommendations := some "Focus on rook endgames", drills := List.replicate 5 sampleDrill }

/-- An external capability whose first response fails validation and whose
retry succeeds. -/
def retryResponses : ℕ → SynthResponse :=
  fun n => if n = 0 then badResponse else goodResponse7

/-- An external capability answering validly at once. -/
def immediateResponses : ℕ → SynthResponse := fun _ => goodResponse5

/-- A four-game analyzed set: two Sicilians, one unclassified game. -/
def sampleGames : List AnalyzedGame :=
  [{ eco := some "B20", result := .whiteWin },
   { eco := some "A00", result := .draw },
   { eco := none, result := .blackWin },
   { eco := some "B20", result := .blackWin }]

/-- A raw game text with wide move-number spacing and double blanks. -/
def sampleRawA : RawGame :=
  { moveText := "1. e4  e5 2. Nf3".toList, white := "Carlsen".toList,
    black := "Niemann".toList, date := "2024.09.01".toList }

/-- The semantically identical game text with tight spacing. -/
def sampleRawB : RawGame :=
  { moveText := "1.e4 e5 2.Nf3".toList, white := "Carlsen".toList,
    black := "Niemann".toList, date := "2024.09.01".toList }

/-- The weak point the detector emits for `samplePly`. -/
def sampleWeakPoint : WeakPoint :=
  { position_fen := "rnbqkbnr/pppppppp/8/8/8/8/PPPPPPPP/RNBQKBNR w KQkq - 0 1",
    move := "Qh5", eval_before := 50, eval_after := -200, eval_loss := 250,
    move_number := 3, phase := "opening" }

/-- A cache interleaving: two concurrent requests for "a", its completion,
then a request for "b". -/
def sampleCacheOps : List (CacheOp ℕ) :=
  [.request "a", .request "a", .complete "a" 7, .request "b"]

/-- A cache interleaving that never mentions fingerprint "a". -/
def otherCacheOps : List (CacheOp ℕ) := [.request "b", .complete "b" 3]

/-- The per-fingerprint single-flight invariant: the compute function has not
started and no entry exists, or it has started exactly once and an entry
exists. -/
def CacheInv {V : Type} (fp : String) (s : CacheState V) : Prop :=
  (s.started fp = 0 ∧ s.entries fp = none) ∨ (s.started fp = 1 ∧ s.entries fp ≠ none)

/-! ## Theorems -/

/-- C1: every WeakPoint produced by the Phase Classifier & Weakness Detector
has a non-negative eval loss (the drop of the mover's evaluation, clipped at
0) and a phase drawn from exactly {opening, middlegame, endgame}. -/
theorem weakPoints_invariant (plies : List PlyData) :
    ∀ wp ∈ detectWeakPoints plies,
      0 ≤ wp.eval_loss ∧
      (wp.phase = "opening" ∨ wp.phase = "middlegame" ∨ wp.phase = "endgame") := by
  intro wp hwp
  simp only [detectWeakPoints, List.mem_filterMap] at hwp
  obtain ⟨p, -, hp⟩ := hwp
  cases hb : p.evalBefore with
  | none => rw [hb] at hp; exact absurd hp (by simp)
  | some b =>
    cases ha : p.evalAfter with
    | none => rw [hb, ha] at hp; exact absurd hp (by simp)
    | some a =>
      rw [hb, ha] at hp
      simp only at hp
      split at hp
      · cases hp
        refine ⟨le_max_left _ _, ?_⟩
        unfold classifyPhase
        split
        · exact Or.inl rfl
        · split
          · exact Or.inr (Or.inr rfl)
          · exact Or.inr (Or.inl rfl)
      · exact absurd hp (by simp)

/-- C1 witness: a concrete ply with a 250-centipawn drop yields a weak point
satisfying the invariant. -/
theorem weakPoints_invariant_witness :
    0 ≤ sampleWeakPoint.eval_loss ∧
    (sampleWeakPoint.phase = "opening" ∨ sampleWeakPoint.phase = "middlegame" ∨
      sampleWeakPoint.phase = "endgame") :=
  weakPoints_invariant [samplePly] sampleWeakPoint (by decide)

/-- C3: when the first external response fails validation, the Plan
Synthesizer issues exactly one retry (two external calls in total); if the
retry also fails it returns `PlanSynthesisError` and persists nothing, and
whatever gets persisted is the complete validated retry plan with one drill
per requested day — plan creation is all-or-nothing. -/
theorem planSynthesis_retry_once (days : ℕ) (responses : ℕ → SynthResponse)
    (h0 : validateResponse days (responses 0) = false) :
    (synthesizePlan days responses).externalCalls = 2 ∧
    (validateResponse days (responses 1) = false →
      (synthesizePlan days responses).result = .error .validationFailed ∧
      (synthesizePlan days responses).persisted = none) ∧
    (∀ p, (synthesizePlan days responses).persisted = some p →
      p = persistPlan (responses 1) ∧ p.daily_drills.length = days) := by
  by_cases h1 : validateResponse days (responses 1) = true
  · have hlen : (responses 1).drills.length = days := by
      have := h1
      unfold validateResponse at this
      simp only [Bool.and_eq_true, beq_iff_eq] at this
      exact this.1.2
    simp only [synthesizePlan, h0, h1, Bool.false_eq_true, if_false, if_true]
    refine ⟨by trivial, fun hcontra => by simp [h1] at hcontra, ?_⟩
    intro p hp
    cases hp
    exact ⟨rfl, hlen⟩
  · replace h1 : validateResponse days (responses 1) = false := by
      simpa using h1
    simp only [synthesizePlan, h0, h1, Bool.false_eq_true, if_false]
    exact ⟨by trivial, fun _ => ⟨by trivial, by trivial⟩, fun p hp => by simp at hp⟩

/-- C3 witness: a 7-day request whose first response is rejected by the
validator leads to exactly two external calls, and the retry's plan is
persisted whole. -/
theorem planSynthesis_retry_once_witness :
    validateResponse 7 (retryResponses 0) = false ∧
    (synthesizePlan 7 retryResponses).externalCalls = 2 ∧
    ((persistPlan (retryResponses 1)).daily_drills.length = 7) :=
  ⟨by decide,
   (planSynthesis_retry_once 7 retryResponses (by decide)).1,
   ((planSynthesis_retry_once 7 retryResponses (by decide)).2.2
      (persistPlan (retryResponses 1)) (by decide)).2⟩

/-- C8: every drill of a persisted plan has a category from exactly
{tactics, opening, endgame, strategy} and a difficulty between 1 and 5;
out-of-set drills are rejected by validation and never persisted. -/
theorem persistedDrills_validated (days : ℕ) (responses : ℕ → SynthResponse)
    (p : SynthPlan) (hp : (synthesizePlan days responses).persisted = some p) :
    ∀ d ∈ p.daily_drills,
      (d.category = "tactics" ∨ d.category = "opening" ∨ d.category = "endgame" ∨
        d.category = "strategy") ∧ 1 ≤ d.difficulty ∧ d.difficulty ≤ 5 := by
  have main : ∀ r : SynthResponse, validateResponse days r = true →
      ∀ d ∈ (persistPlan r).daily_drills,
        (d.category = "tactics" ∨ d.category = "opening" ∨ d.category = "endgame" ∨
          d.category = "strategy") ∧ 1 ≤ d.difficulty ∧ d.difficulty ≤ 5 := by
    intro r hr d hd
    unfold validateResponse at hr
    simp only [Bool.and_eq_true, List.all_eq_true] at hr
    have hv := hr.2 d hd
    unfold validateDrill validCategory at hv
    simp only [Bool.and_eq_true, Bool.or_eq_true, beq_iff_eq,
      decide_eq_true_eq] at hv
    exact ⟨by tauto, hv.1.2, hv.2⟩
  unfold synthesizePlan at hp
  split at hp
  · next h0 =>
    cases hp
    exact main _ h0
  · split at hp
    · next h1 =>
      cases hp
      exact main _ h1
    · simp at hp

/-- C8 witness: a concrete persisted 5-day plan only holds drills with
category `tactics` and difficulty 3. -/
theorem persistedDrills_validated_witness :
    (sampleDrill.category = "tactics" ∨ sampleDrill.category = "opening" ∨
      sampleDrill.category = "endgame" ∨ sampleDrill.category = "strategy") ∧
    1 ≤ sampleDrill.difficulty ∧ sampleDrill.difficulty ≤ 5 :=
  persistedDrills_validated 5 immediateResponses (persistPlan goodResponse5)
    (by decide) sampleDrill (by decide)

/-- C7: post-creation update operations change only drill completion flags —
the opponent, the openings, the weak points, the recommendation text and all
drill content other than the completion flag are untouched. -/
theorem planOp_frame (plan : PrepPlan) (op : PlanUpdateOp) :
    (applyPlanOp plan op).opponent_name = plan.opponent_name ∧
    (applyPlanOp plan op).tournament_date = plan.tournament_date ∧
    (applyPlanOp plan op).common_openings = plan.common_openings ∧
    (applyPlanOp plan op).weak_points = plan.weak_points ∧
    (applyPlanOp plan op).recommendations = plan.recommendations ∧
    (applyPlanOp plan op).drills.map DailyDrill.content =
      plan.drills.map DailyDrill.content := by
  have content_ite : ∀ (d : DailyDrill) (i : String) (b : Bool),
      DailyDrill.content (if d.id = i then { d with completed := b } else d) =
        DailyDrill.content d := by
    intro d i b
    by_cases h : d.id = i <;> simp [h, DailyDrill.content]
  cases op with
  | completeDrill i =>
    refine ⟨rfl, rfl, rfl, rfl, rfl, ?_⟩
    simp only [applyPlanOp, List.map_map]
    exact List.map_congr_left fun d _ => content_ite d i true
  | setDrillCompleted i b =>
    refine ⟨rfl, rfl, rfl, rfl, rfl, ?_⟩
    simp only [applyPlanOp, List.map_map]
    exact List.map_congr_left fun d _ => content_ite d i b

/-- C9 counterexample: when localStorage holds the empty string under
`auth_token` — a value, but JavaScript-falsy — the request interceptor adds no
`Authorization` header, refuting the claim that any stored value is sent as a
Bearer header. -/
theorem authHeader_counterexample :
    emptyTokenStore "auth_token" = some "" ∧
    (requestInterceptor emptyTokenStore sampleConfig).authorization ≠
      some ("Bearer " ++ "") := by
  exact ⟨rfl, by decide⟩

/-- C9 (amended): if localStorage holds a non-empty value under `auth_token`
the request carries `Authorization: Bearer <token>` with every other config
field untouched, and if the value is absent or empty the config passes through
unchanged, with no `Authorization` header added; this holds for every request
of the singleton client, hence for all ApiClient operations. -/
theorem authHeader_amended (store : Store) (config : RequestConfig) :
    (∀ t, store "auth_token" = some t → t ≠ "" →
      (requestInterceptor store config).authorization = some ("Bearer " ++ t) ∧
      (requestInterceptor store config).url = config.url ∧
      (requestInterceptor store config).contentType = config.contentType) ∧
    (store "auth_token" = none ∨ store "auth_token" = some "" →
      requestInterceptor store config = config) := by
  constructor
  · intro t ht hne
    unfold requestInterceptor
    rw [ht]
    simp [hne]
  · rintro (h | h)
    · unfold requestInterceptor
      rw [h]
    · unfold requestInterceptor
      rw [h]
      simp

/-- C9 witness: a stored token `tok123` produces the Bearer header; an
empty-string token leaves the config untouched. -/
theorem authHeader_amended_witness :
    (requestInterceptor bearerStore sampleConfig).authorization =
      some ("Bearer " ++ "tok123") ∧
    requestInterceptor emptyTokenStore sampleConfig = sampleConfig :=
  ⟨((authHeader_amended bearerStore sampleConfig).1 "tok123" rfl (by decide)).1,
   (authHeader_amended emptyTokenStore sampleConfig).2 (Or.inr rfl)⟩

/-- C10: a 401 response error makes the client remove `auth_token` from
localStorage (leaving all other keys intact) and redirect to `/login`, while
the caller's promise is still rejected with the original error; any non-401
error leaves both localStorage and location untouched and rejects with the
original error. -/
theorem response401_contract (st : BrowserState) (e : HttpError) :
    (e.status = some 401 →
      (responseErrorInterceptor st e).1.store "auth_token" = none ∧
      (responseErrorInterceptor st e).1.location = "/login" ∧
      (responseErrorInterceptor st e).2 = e ∧
      ∀ k, k ≠ "auth_token" → (responseErrorInterceptor st e).1.store k = st.store k) ∧
    (e.status ≠ some 401 → responseErrorInterceptor st e = (st, e)) := by
  constructor
  · intro h
    unfold responseErrorInterceptor
    rw [if_pos h]
    refine ⟨by simp [removeKey], rfl, rfl, ?_⟩
    intro k hk
    simp [removeKey, hk]
  · intro h
    unfold responseErrorInterceptor
    rw [if_neg h]

/-- C10 witness: a concrete 401 error redirects to `/login` and keeps the
original error, while a 500 error changes nothing. -/
theorem response401_contract_witness :
    ((responseErrorInterceptor sampleBrowser err401).1.location = "/login" ∧
      (responseErrorInterceptor sampleBrowser err401).2 = err401) ∧
    responseErrorInterceptor sampleBrowser err500 = (sampleBrowser, err500) :=
  ⟨⟨((response401_contract sampleBrowser err401).1 rfl).2.1,
    ((response401_contract sampleBrowser err401).1 rfl).2.2.1⟩,
   (response401_contract sampleBrowser err500).2 (by decide)⟩

/-- The number of parsed games is the number of batch items the parser
accepts. -/
theorem length_filterMap_eq_countP {α β : Type} (f : α → Option β) (l : List α) :
    (l.filterMap f).length = l.countP fun a => (f a).isSome := by
  induction l with
  | nil => rfl
  | cons a l ih =>
    rw [List.filterMap_cons, List.countP_cons]
    cases h : f a <;> simp [h, ih]

/-- Accepted plus rejected batch items cover the whole batch. -/
theorem countP_isSome_add_isNone {α β : Type} (f : α → Option β) (l : List α) :
    (l.countP fun a => (f a).isSome) + (l.countP fun a => (f a).isNone) = l.length := by
  induction l with
  | nil => rfl
  | cons a l ih =>
    rw [List.countP_cons, List.countP_cons, List.length_cons]
    cases h : f a <;> simp [h] <;> omega

/-- Filtering an enumerated list on its payload counts the payloads. -/
theorem length_filter_enumFrom {α : Type} (q : α → Bool) (l : List α) :
    ∀ n, ((List.enumFrom n l).filter fun x => q x.2).length = l.countP q := by
  induction l with
  | nil => intro n; rfl
  | cons a l ih =>
    intro n
    rw [List.enumFrom_cons, List.filter_cons, List.countP_cons]
    cases h : q a <;> simp [h, ih (n + 1)]

/-- C4: ingestion returns the count of games that parsed together with one
recorded parse error per malformed game, covering the whole batch, and fails
with `EmptyBatchError` exactly when zero games parse. -/
theorem ingest_contract {α β : Type} (parse : α → Option β) (batch : List α) :
    (ingest parse batch = .error .emptyBatch ↔ ∀ a ∈ batch, parse a = none) ∧
    (∀ n errs, ingest parse batch = .ok (n, errs) →
      n = (batch.countP fun a => (parse a).isSome) ∧
      errs.length = (batch.countP fun a => (parse a).isNone) ∧
      n + errs.length = batch.length ∧ 0 < n) := by
  by_cases h : (batch.filterMap parse).length = 0
  · have hall : ∀ a ∈ batch, parse a = none := by
      rw [List.length_eq_zero] at h
      exact List.filterMap_eq_nil_iff.mp h
    constructor
    · simp only [ingest, h, if_pos]
      exact ⟨fun _ => hall, fun _ => trivial⟩
    · intro n errs hok
      simp only [ingest, h, if_pos] at hok
      cases hok
  · constructor
    · simp only [ingest, h, if_neg, if_false]
      constructor
      · intro hc; cases hc
      · intro hall
        exact absurd (List.length_eq_zero.mpr (List.filterMap_eq_nil_iff.mpr hall)) h
    · intro n errs hok
      simp only [ingest, h, if_neg, if_false] at hok
      cases hok
      refine ⟨length_filterMap_eq_countP parse batch, ?_, ?_, ?_⟩
      · rw [List.length_map, List.enum]
        exact length_filter_enumFrom (fun a => (parse a).isNone) batch 0
      · rw [List.length_map, List.enum,
          length_filter_enumFrom (fun a => (parse a).isNone) batch 0,
          length_filterMap_eq_countP]
        exact countP_isSome_add_isNone parse batch
      · have := length_filterMap_eq_countP parse batch
        omega

/-- C4 witness: ingesting three games of which one is malformed yields two
ingested games and one recorded parse error, not an empty-batch failure. -/
theorem ingest_contract_witness :
    ingest (fun x => x) [some 1, none, some (2 : ℕ)] = .ok (2, [⟨1, "malformed game"⟩]) ∧
    2 = ([some 1, none, some (2 : ℕ)].countP fun a => a.isSome) ∧
    ([(⟨1, "malformed game"⟩ : ParseError)].length =
      ([some 1, none, some (2 : ℕ)].countP fun a => a.isNone)) ∧
    2 + [(⟨1, "malformed game"⟩ : ParseError)].length = [some 1, none, some (2 : ℕ)].length ∧
    0 < 2 :=
  ⟨rfl, (ingest_contract (fun x => x) [some 1, none, some 2]).2 2 [⟨1, "malformed game"⟩] rfl⟩

/-- One cache step preserves the per-fingerprint single-flight invariant. -/
theorem cacheStep_inv {V : Type} (fp : String) (s : CacheState V) (op : CacheOp V)
    (h : CacheInv fp s) : CacheInv fp (cacheStep s op) := by
  cases op with
  | request f =>
    cases hf : s.entries f with
    | none =>
      simp only [cacheStep, hf]
      by_cases hk : fp = f
      · subst hk
        rcases h with ⟨h1, h2⟩ | ⟨h1, h2⟩
        · right
          constructor
          · simp [h1]
          · simp
        · exact absurd hf h2
      · rcases h with ⟨h1, h2⟩ | ⟨h1, h2⟩
        · left; constructor <;> simp [hk, h1, h2]
        · right; constructor <;> simp [hk, h1, h2]
    | some e => simpa only [cacheStep, hf] using h
  | complete f v =>
    cases hf : s.entries f with
    | none => simpa only [cacheStep, hf] using h
    | some e =>
      cases e with
      | computing =>
        simp only [cacheStep, hf]
        by_cases hk : fp = f
        · subst hk
          rcases h with ⟨h1, h2⟩ | ⟨h1, h2⟩
          · exact absurd h2 (by simp [hf])
          · right; constructor <;> simp [h1]
        · rcases h with ⟨h1, h2⟩ | ⟨h1, h2⟩
          · left; constructor <;> simp [hk, h1, h2]
          · right; constructor <;> simp [hk, h1, h2]
      | done w => simpa only [cacheStep, hf] using h

/-- Running any interleaving preserves the single-flight invariant. -/
theorem cacheRun_inv {V : Type} (fp : String) (ops : List (CacheOp V)) :
    ∀ s : CacheState V, CacheInv fp s → CacheInv fp (cacheRun s ops) := by
  induction ops with
  | nil => exact fun s h => h
  | cons op ops ih =>
    intro s h
    exact ih (cacheStep s op) (cacheStep_inv fp s op h)

/-- No step ever deletes an entry. -/
theorem cacheStep_entries_ne_none {V : Type} (fp : String) (s : CacheState V)
    (op : CacheOp V) (h : s.entries fp ≠ none) : (cacheStep s op).entries fp ≠ none := by
  cases op with
  | request f =>
    cases hf : s.entries f with
    | none =>
      simp only [cacheStep, hf]
      by_cases hk : fp = f <;> simp [hk, h]
    | some e => simpa only [cacheStep, hf] using h
  | complete f v =>
    cases hf : s.entries f with
    | none => simpa only [cacheStep, hf] using h
    | some e =>
      cases e with
      | computing =>
        simp only [cacheStep, hf]
        by_cases hk : fp = f <;> simp [hk, h]
      | done w => simpa only [cacheStep, hf] using h

/-- A whole run never deletes an entry. -/
theorem cacheRun_entries_ne_none {V : Type} (fp : String) (ops : List (CacheOp V)) :
    ∀ s : CacheState V, s.entries fp ≠ none → (cacheRun s ops).entries fp ≠ none := by
  induction ops with
  | nil => exact fun s h => h
  | cons op ops ih =>
    intro s h
    exact ih (cacheStep s op) (cacheStep_entries_ne_none fp s op h)

/-- After a request for `fp`, an entry for `fp` exists. -/
theorem cacheStep_request_ne_none {V : Type} (fp : String) (s : CacheState V) :
    (cacheStep s (.request fp)).entries fp ≠ none := by
  cases hf : s.entries fp with
  | none => simp [cacheStep, hf]
  | some e => simp [cacheStep, hf]

/-- Once some interleaving contains a request for `fp`, the final state has an
entry for `fp`. -/
theorem cacheRun_request_ne_none {V : Type} (fp : String) (ops : List (CacheOp V)) :
    ∀ s : CacheState V, CacheOp.request fp ∈ ops → (cacheRun s ops).entries fp ≠ none := by
  induction ops with
  | nil => intro s h; cases h
  | cons op ops ih =>
    intro s h
    rcases List.mem_cons.mp h with h | h
    · subst h
      exact cacheRun_entries_ne_none fp ops _ (cacheStep_request_ne_none fp s)
    · exact ih (cacheStep s op) h

/-- A step on another fingerprint leaves this fingerprint's slot and counter
untouched. -/
theorem cacheStep_frame {V : Type} (fp : String) (s : CacheState V) (op : CacheOp V)
    (h : ¬ op.touches fp) :
    (cacheStep s op).entries fp = s.entries fp ∧
    (cacheStep s op).started fp = s.started fp := by
  cases op with
  | request f =>
    have hk : fp ≠ f := fun hc => h (hc.symm)
    cases hf : s.entries f with
    | none => simp [cacheStep, hf, hk]
    | some e => simp [cacheStep, hf]
  | complete f v =>
    have hk : fp ≠ f := fun hc => h (hc.symm)
    cases hf : s.entries f with
    | none => simp [cacheStep, hf]
    | some e =>
      cases e with
      | computing => simp [cacheStep, hf, hk]
      | done w => simp [cacheStep, hf]

/-- A whole interleaving on other fingerprints leaves this fingerprint's slot
and counter untouched. -/
theorem cacheRun_frame {V : Type} (fp : String) (ops : List (CacheOp V))
    (h : ∀ op ∈ ops, ¬ op.touches fp) :
    ∀ s : CacheState V,
      (cacheRun s ops).entries fp = s.entries fp ∧
      (cacheRun s ops).started fp = s.started fp := by
  induction ops with
  | nil => exact fun s => ⟨rfl, rfl⟩
  | cons op ops ih =>
    intro s
    have hop := cacheStep_frame fp s op (h op (List.mem_cons_self op ops))
    have hrest := ih (fun o ho => h o (List.mem_cons_of_mem op ho)) (cacheStep s op)
    exact ⟨hrest.1.trans hop.1, hrest.2.trans hop.2⟩

/-- C6: over every interleaving of get-or-compute events starting from the
empty cache, the compute function for a fingerprint starts at most once —
exactly once as soon as some caller requested it (concurrent callers await the
single in-flight computation) — while events on other fingerprints never
touch this fingerprint's slot or counter (distinct fingerprints proceed
independently). -/
theorem cache_single_flight {V : Type} (ops : List (CacheOp V)) (fp : String) :
    (cacheRun (initCache V) ops).started fp ≤ 1 ∧
    (CacheOp.request fp ∈ ops → (cacheRun (initCache V) ops).started fp = 1) ∧
    (∀ s : CacheState V, (∀ op ∈ ops, ¬ op.touches fp) →
      (cacheRun s ops).entries fp = s.entries fp ∧
      (cacheRun s ops).started fp = s.started fp) := by
  have hinv : CacheInv fp (cacheRun (initCache V) ops) :=
    cacheRun_inv fp ops (initCache V) (Or.inl ⟨rfl, rfl⟩)
  refine ⟨?_, ?_, fun s h => cacheRun_frame fp ops h s⟩
  · rcases hinv with ⟨h1, -⟩ | ⟨h1, -⟩ <;> omega
  · intro hmem
    have hne := cacheRun_request_ne_none fp ops (initCache V) hmem
    rcases hinv with ⟨-, h2⟩ | ⟨h1, -⟩
    · exact absurd h2 hne
    · exact h1

/-- C6 witness: in an interleaving with two concurrent requests for
fingerprint "a", its computation starts exactly once, and an interleaving
touching only "b" leaves "a" untouched. -/
theorem cache_single_flight_witness :
    (cacheRun (initCache ℕ) sampleCacheOps).started "a" = 1 ∧
    (cacheRun (initCache ℕ) otherCacheOps).entries "a" = (initCache ℕ).entries "a" :=
  ⟨(cache_single_flight sampleCacheOps "a").2.1 (by decide),
   ((cache_single_flight otherCacheOps "a").2.2 (initCache ℕ) (by
      intro op hop
      fin_cases hop <;> simp [CacheOp.touches])).1⟩

/-- Unfolding the tokenizer on a cons cell. -/
theorem tokenizeAux_cons (c : Char) (s : List Char) :
    tokenizeAux (c :: s) =
      match tokenizeAux s with
      | [] => []
      | t :: ts => if isWs c then [] :: t :: ts else (c :: t) :: ts := rfl

/-- The tokenizer always produces at least one (possibly empty) chunk. -/
theorem tokenizeAux_ne_nil (s : List Char) : tokenizeAux s ≠ [] := by
  induction s with
  | nil => simp [tokenizeAux]
  | cons c s ih =>
    rw [tokenizeAux_cons]
    cases h : tokenizeAux s with
    | nil => exact absurd h ih
    | cons t ts =>
      cases hw : isWs c <;> simp [hw]

/-- No chunk produced by the tokenizer contains whitespace. -/
theorem tokenizeAux_chars (s : List Char) :
    ∀ t ∈ tokenizeAux s, ∀ c ∈ t, isWs c = false := by
  induction s with
  | nil =>
    intro t ht c hc
    simp [tokenizeAux] at ht
    subst ht
    simp at hc
  | cons a s ih =>
    intro t ht c hc
    rw [tokenizeAux_cons] at ht
    cases h : tokenizeAux s with
    | nil => exact absurd h (tokenizeAux_ne_nil s)
    | cons t₀ ts₀ =>
      rw [h] at ht
      cases hw : isWs a <;> rw [hw] at ht
      · simp only [Bool.false_eq_true, if_false] at ht
        rcases List.mem_cons.mp ht with rfl | ht'
        · rcases List.mem_cons.mp hc with rfl | hc'
          · exact hw
          · exact ih t₀ (h ▸ List.mem_cons_self t₀ ts₀) c hc'
        · exact ih t (h ▸ List.mem_cons_of_mem t₀ ht') c hc
      · simp only [if_true] at ht
        rcases List.mem_cons.mp ht with rfl | ht'
        · simp at hc
        · exact ih t (h ▸ ht') c hc

/-- Prepending whitespace-free characters extends the first chunk. -/
theorem tokenizeAux_append (l r : List Char) (hl : ∀ c ∈ l, isWs c = false)
    (t : List Char) (ts : List (List Char)) (hr : tokenizeAux r = t :: ts) :
    tokenizeAux (l ++ r) = (l ++ t) :: ts := by
  induction l with
  | nil => simpa using hr
  | cons a l ih =>
    have ha : isWs a = false := hl a (List.mem_cons_self a l)
    have ih' := ih fun c hc => hl c (List.mem_cons_of_mem a hc)
    rw [List.cons_append, tokenizeAux_cons, ih']
    simp [ha]

/-- A leading space starts a fresh chunk. -/
theorem tokenizeAux_space (r : List Char) :
    tokenizeAux (' ' :: r) = [] :: tokenizeAux r := by
  rw [tokenizeAux_cons]
  cases h : tokenizeAux r with
  | nil => exact absurd h (tokenizeAux_ne_nil r)
  | cons t ts => simp [isWs]

/-- Tokenizing a single-space render of well-formed tokens recovers them. -/
theorem tokenize_renderTokens (ts : List (List Char))
    (h : ∀ t ∈ ts, t ≠ [] ∧ ∀ c ∈ t, isWs c = false) :
    tokenize (renderTokens ts) = ts := by
  induction ts with
  | nil => rfl
  | cons t ts ih =>
    have ht := h t (List.mem_cons_self t ts)
    cases ts with
    | nil =>
      have haux : tokenizeAux t = [t] := by
        have := tokenizeAux_append t [] ht.2 [] [] rfl
        simpa using this
      unfold tokenize
      rw [show renderTokens [t] = t from rfl, haux, List.filter_cons]
      simp [ht.1]
    | cons u ts' =>
      have hrest : tokenize (renderTokens (u :: ts')) = u :: ts' :=
        ih fun x hx => h x (List.mem_cons_of_mem t hx)
      cases haux : tokenizeAux (renderTokens (u :: ts')) with
      | nil => exact absurd haux (tokenizeAux_ne_nil _)
      | cons t₀ ts₀ =>
        have hsp : tokenizeAux (' ' :: renderTokens (u :: ts')) = [] :: t₀ :: ts₀ := by
          rw [tokenizeAux_space, haux]
        have happ := tokenizeAux_append t (' ' :: renderTokens (u :: ts')) ht.2
          [] (t₀ :: ts₀) hsp
        have hfil : (t₀ :: ts₀).filter (fun x => !x.isEmpty) = u :: ts' := by
          rw [← haux]
          exact hrest
        unfold tokenize
        rw [show renderTokens (t :: u :: ts') = t ++ ' ' :: renderTokens (u :: ts')
            from rfl, happ, List.filter_cons]
        simp [ht.1, hfil]

/-- Every normalized token is non-empty, whitespace-free and already
stripped of move-number markup. -/
theorem normalizeTokens_wf (s : List Char) :
    ∀ t ∈ normalizeTokens s,
      t ≠ [] ∧ (∀ c ∈ t, isWs c = false) ∧ stripMoveNum t = t := by
  intro t ht
  unfold normalizeTokens at ht
  rw [List.mem_filter] at ht
  obtain ⟨hmem, hne⟩ := ht
  rw [List.mem_map] at hmem
  obtain ⟨tok, htok, rfl⟩ := hmem
  have htok' : tok ∈ tokenizeAux s := (List.mem_filter.mp htok).1
  refine ⟨by simpa using hne, ?_, ?_⟩
  · intro c hc
    have hsub : c ∈ tok := (List.dropWhile_sublist _).subset hc
    exact tokenizeAux_chars s tok htok' c hsub
  · exact List.dropWhile_idempotent _ _

/-- Normalizing the canonical render of a text's normalized tokens yields the
same tokens: normalization is idempotent. -/
theorem normalizeTokens_canonical (s : List Char) :
    normalizeTokens (canonicalMoveText s) = normalizeTokens s := by
  have hwf := normalizeTokens_wf s
  have h1 : tokenize (renderTokens (normalizeTokens s)) = normalizeTokens s :=
    tokenize_renderTokens _ fun t ht => ⟨(hwf t ht).1, (hwf t ht).2.1⟩
  have hmap : (normalizeTokens s).map stripMoveNum = normalizeTokens s := by
    conv_rhs => rw [← List.map_id (normalizeTokens s)]
    exact List.map_congr_left fun t ht => (hwf t ht).2.2
  show ((tokenize (canonicalMoveText s)).map stripMoveNum).filter _ = _
  unfold canonicalMoveText
  rw [h1, hmap]
  exact List.filter_eq_self.mpr fun t ht => by simp [(hwf t ht).1]

/-- C5: the Game Normalizer's fingerprint depends only on normalized content —
normalizing an already-normalized game changes nothing (idempotence), and two
raw games whose move texts normalize to the same token sequence and that share
players and date receive the same fingerprint. -/
theorem fingerprint_normalization (g₁ g₂ : RawGame) :
    (normalizeGame (normalizeGame g₁).toRaw).fingerprint = (normalizeGame g₁).fingerprint ∧
    (normalizeTokens g₁.moveText = normalizeTokens g₂.moveText →
      g₁.white = g₂.white → g₁.black = g₂.black → g₁.date = g₂.date →
      (normalizeGame g₁).fingerprint = (normalizeGame g₂).fingerprint) := by
  constructor
  · have hc : canonicalMoveText (canonicalMoveText g₁.moveText) =
        canonicalMoveText g₁.moveText := by
      calc canonicalMoveText (canonicalMoveText g₁.moveText)
          = renderTokens (normalizeTokens (canonicalMoveText g₁.moveText)) := rfl
        _ = renderTokens (normalizeTokens g₁.moveText) := by
            rw [normalizeTokens_canonical]
        _ = canonicalMoveText g₁.moveText := rfl
    simp [normalizeGame, NormalGame.toRaw, hc]
  · intro hm hw hb hd
    simp [normalizeGame, canonicalMoveText, fingerprintOf, hm, hw, hb, hd]

/-- C5 witness: `1. e4  e5 2. Nf3` and `1.e4 e5 2.Nf3` are textually
different yet collapse to one fingerprint, and re-normalizing is a no-op. -/
theorem fingerprint_normalization_witness :
    sampleRawA.moveText ≠ sampleRawB.moveText ∧
    (normalizeGame sampleRawA).fingerprint = (normalizeGame sampleRawB).fingerprint ∧
    (normalizeGame (normalizeGame sampleRawA).toRaw).fingerprint =
      (normalizeGame sampleRawA).fingerprint :=
  ⟨by decide,
   (fingerprint_normalization sampleRawA sampleRawB).2 (by decide) rfl rfl rfl,
   (fingerprint_normalization sampleRawA sampleRawB).1⟩

/-- Summing pointwise quotients equals the quotient of the sum. -/
theorem sum_map_div {α : Type} (l : List α) (f : α → ℚ) (c : ℚ) :
    (l.map fun x => f x / c).sum = (l.map f).sum / c := by
  induction l with
  | nil => simp
  | cons a l ih => simp [ih, add_div]

/-- C2: on a non-empty analyzed set, the Opening Aggregator's group
frequencies sum to 1, the output is sorted by `GroupLE` (descending frequency
with ascending classification code as tie-break, unclassified after every
classified group), there is at most one unclassified bucket, and every group
following an unclassified group is itself unclassified — so the unclassified
bucket is last regardless of its size. -/
theorem openingAggregator_contract (games : List AnalyzedGame) (h : games ≠ []) :
    ((aggregateOpenings games).map OpeningGroup.freq).sum = 1 ∧
    List.Sorted GroupLE (aggregateOpenings games) ∧
    ((aggregateOpenings games).countP isUnclassified) ≤ 1 ∧
    (∀ i j : Fin ((aggregateOpenings games).length), i < j →
      ((aggregateOpenings games).get i).code = none →
      ((aggregateOpenings games).get j).code = none) := by
  have hsorted : List.Sorted GroupLE (aggregateOpenings games) :=
    List.sorted_insertionSort GroupLE _
  have hperm : List.Perm (aggregateOpenings games)
      ((games.map (·.eco)).dedup.map (mkGroup games)) :=
    List.perm_insertionSort GroupLE _
  refine ⟨?_, hsorted, ?_, ?_⟩
  · have hlen : (games.map (·.eco)).length = games.length := List.length_map _ _
    have hne : ((games.length : ℚ)) ≠ 0 := by
      have : games.length ≠ 0 := fun hc => h (List.length_eq_zero.mp hc)
      exact_mod_cast this
    calc ((aggregateOpenings games).map OpeningGroup.freq).sum
        = (((games.map (·.eco)).dedup.map (mkGroup games)).map OpeningGroup.freq).sum :=
          (hperm.map OpeningGroup.freq).sum_eq
      _ = ((games.map (·.eco)).dedup.map fun o =>
            ((((games.map (·.eco)).countP fun x => decide (x = o)) : ℚ)) /
              (games.length : ℚ)).sum := by
          rw [List.map_map]
          rfl
      _ = ((games.map (·.eco)).dedup.map fun o =>
            ((((games.map (·.eco)).countP fun x => decide (x = o)) : ℚ))).sum /
          (games.length : ℚ) :=
          sum_map_div _ _ _
      _ = ((((games.map (·.eco)).dedup.map fun o =>
            (games.map (·.eco)).countP fun x => decide (x = o)).sum : ℕ) : ℚ) /
          (games.length : ℚ) := by
          rw [Nat.cast_list_sum, List.map_map]
          rfl
      _ = ((games.map (·.eco)).length : ℚ) / (games.length : ℚ) := by
          have hsum : ((games.map (·.eco)).dedup.map fun o =>
              (games.map (·.eco)).countP fun x => decide (x = o)).sum =
              (games.map (·.eco)).length := by
            calc ((games.map (·.eco)).dedup.map fun o =>
                  (games.map (·.eco)).countP fun x => decide (x = o)).sum
                = ((games.map (·.eco)).dedup.map fun x =>
                    @List.count (Option String) instBEqOfDecidableEq x
                      (games.map (·.eco))).sum := rfl
              _ = (games.map (·.eco)).length :=
                  List.sum_map_count_dedup_eq_length _
          rw [hsum]
      _ = 1 := by rw [hlen]; exact div_self hne
  · have hcount : ((aggregateOpenings games).countP isUnclassified) =
        (((games.map (·.eco)).dedup.map (mkGroup games)).countP isUnclassified) :=
      hperm.countP_eq _
    rw [hcount, List.countP_map]
    have hfun : (isUnclassified ∘ mkGroup games) =
        fun o : Option String => decide (o = none) := by
      funext o
      cases o <;> rfl
    rw [hfun]
    exact List.nodup_iff_count_le_one.mp (List.nodup_dedup _) none
  · intro i j hij hi
    exact (hsorted.rel_get_of_lt hij).1 hi

/-- C2 witness: on a concrete four-game set with two Sicilians and one
unclassified game, the frequencies sum to 1 and at most one group is the
unclassified bucket. -/
theorem openingAggregator_contract_witness :
    ((aggregateOpenings sampleGames).map OpeningGroup.freq).sum = 1 ∧
    ((aggregateOpenings sampleGames).countP isUnclassified) ≤ 1 :=
  ⟨(openingAggregator_contract sampleGames (by decide)).1,
   (openingAggregator_contract sampleGames (by decide)).2.2.1⟩

end ChessPrep
